import Mathlib

/-!
Verification development for the aiOS `TaskAgent` plan-execution engine
(`aios_agent/agents/task.py`).  The definitions below are a shallow
embedding of the Plan Builder (`_create_plan`), the Plan Runner
(`_execute_plan` together with its `_run_step` wrapper), and the keyword
dispatcher (`handle_task`).  External collaborators (the step executor,
i.e. `_execute_single_step` with its tool calls / delegation, and the
event sink `push_event`'s gRPC call) are modelled as parameters, since
their implementations live outside this algorithm.

Python-semantics notes reflected in the model:
  * `remaining` is a Python `set` iterated by `for step_id in remaining:`.
    The cascading-skip branch calls `remaining.discard(step_id)` inside
    that iteration; CPython's set iterator checks the set's size before
    producing each element (including before signalling exhaustion), so
    any discard during the iteration makes the next `next()` call raise
    `RuntimeError: Set changed size during iteration`.  The model returns
    `RunError.setChanged` in exactly that situation.
  * `push_event` awaits `stub.PushEvent(...)` with no exception handler,
    so a failing event-sink call propagates out of `_execute_plan`;
    modelled by the `sinkOk` flag and `RunError.eventSink`.
  * dict iteration order is insertion order; the arbitrary iteration
    order of the `remaining` set is linearised as the insertion-ordered
    key list (every claim proved below is insensitive to that choice, as
    the skip-raise condition and the ready set are order-independent).
-/

namespace AiosTask

/-- Result mapping returned by the step executor as the Runner reads it:
`result.get("success", False)` and `result.get("error", "")`; the rest of
the payload is opaque to the Runner and omitted. -/
structure StepResult where
  success : Bool
  error : String
  deriving Repr, DecidableEq

/-- One plan step as the Runner reads it: `step["id"]`,
`step.get("depends_on", [])`, `step.get("can_fail", False)`.  The other
keys (description, agent_type, tool, input) are only ever passed through
to the external executor and are omitted from the Runner model. -/
structure Step where
  id : String
  dependsOn : List String
  canFail : Bool
  deriving Repr, DecidableEq

/-- Entry of the `failed` list.  Executed failures are appended as
`{"id": ..., "error": ...}` (no "skipped" key, modelled `skipped :=
false`); cascade and deadlock records carry `"skipped": True`. -/
structure FailureRec where
  id : String
  error : String
  skipped : Bool
  deriving Repr, DecidableEq

/-- Exceptions that can escape a `_execute_plan` call. -/
inductive RunError where
  /-- `RuntimeError: Set changed size during iteration`, raised by the
  `remaining` set iterator after the cascading-skip branch discards the
  current element. -/
  | setChanged
  /-- An exception escaping the un-guarded `await self.push_event(...)`. -/
  | eventSink
  deriving Repr, DecidableEq

/-- Behaviour of one `_execute_single_step` call as seen by the wrapper
`_run_step`: a returned result mapping, an `asyncio.TimeoutError` from
`asyncio.wait_for`, or any other exception `exc` (carrying `str(exc)`). -/
inductive ExecOutcome where
  | ok (r : StepResult)
  | timeout
  | exn (msg : String)
  deriving Repr, DecidableEq

/-- The external step executor: receives the step dict and the
`completed` mapping (dependency outputs are injected from it). -/
def Executor : Type := Step → List (String × StepResult) → ExecOutcome

/-- Python dict assignment `m[k] = v`: overwrites in place on an existing
key (keeping its position), appends otherwise. -/
def insertOv (m : List (String × Step)) (k : String) (v : Step) : List (String × Step) :=
  if m.any (fun p => p.1 == k) then
    m.map (fun p => if p.1 == k then (k, v) else p)
  else
    m ++ [(k, v)]

/-- `steps_by_id`: `for step in plan_steps: steps_by_id[step["id"]] = step`. -/
def buildStepsById (planSteps : List Step) : List (String × Step) :=
  planSteps.foldl (fun m s => insertOv m s.id s) []

/-- `steps_by_id[step_id]` (total: lookups in the Runner only happen for
ids drawn from the key set, so the default is never consulted). -/
def lookupStep (m : List (String × Step)) (sid : String) : Step :=
  ((m.find? (fun p => p.1 == sid)).map Prod.snd).getD ⟨sid, [], false⟩

/-- `all(d in completed or d not in remaining for d in deps)`. -/
def depsResolvedB (completed : List (String × StepResult)) (remaining : List String)
    (s : Step) : Bool :=
  s.dependsOn.all (fun d => completed.any (fun p => p.1 == d) || !(remaining.contains d))

/-- `dep_failed = any(d in [f["id"] for f in failed] for d in deps)`. -/
def depFailedB (failed : List FailureRec) (s : Step) : Bool :=
  s.dependsOn.any (fun d => failed.any (fun fr => fr.id == d))

/-- Condition under which the candidate loop takes the cascading-skip
branch for `sid` (and therefore mutates `remaining` mid-iteration). -/
def skipTriggerB (m : List (String × Step)) (completed : List (String × StepResult))
    (failed : List FailureRec) (remaining : List String) (sid : String) : Bool :=
  depsResolvedB completed remaining (lookupStep m sid) &&
    depFailedB failed (lookupStep m sid) &&
    !(lookupStep m sid).canFail

/-- The ready set of one wave: ids of `remaining` whose dependencies are
all resolved (when no skip branch fires, these are exactly the ids
appended to `ready`). -/
def readySet (m : List (String × Step)) (completed : List (String × StepResult))
    (remaining : List String) : List String :=
  remaining.filter (fun sid => depsResolvedB completed remaining (lookupStep m sid))

/-- Ids left in `remaining` after a wave (each executed id is
`remaining.discard`-ed in the result loop). -/
def blockedSet (m : List (String × Step)) (completed : List (String × StepResult))
    (remaining : List String) : List String :=
  remaining.filter (fun sid => !(depsResolvedB completed remaining (lookupStep m sid)))

/-- The `_run_step` wrapper: converts a timeout into
`{"success": False, "error": f"Step {sid} timed out"}` and any other
exception into `{"success": False, "error": str(exc)}`. -/
def runStepWrapper (exec : Executor) (m : List (String × Step))
    (completed : List (String × StepResult)) (sid : String) : StepResult :=
  match exec (lookupStep m sid) completed with
  | ExecOutcome.ok r => r
  | ExecOutcome.timeout => { success := false, error := "Step " ++ sid ++ " timed out" }
  | ExecOutcome.exn msg => { success := false, error := msg }

/-- `asyncio.gather(*[_run_step(sid) for sid in ready])`: one
`(sid, result)` pair per ready step, in `ready` order. -/
def waveResults (exec : Executor) (m : List (String × Step))
    (completed : List (String × StepResult)) (ready : List String) :
    List (String × StepResult) :=
  ready.map (fun sid => (sid, runStepWrapper exec m completed sid))

/-- The per-wave result loop: on success the result joins `completed`;
on failure with `can_fail` false a `{"id", "error"}` record joins
`failed`; on failure with `can_fail` true the result still joins
`completed` (tolerated failure). -/
def processResults (m : List (String × Step)) :
    List (String × StepResult) → List (String × StepResult) → List FailureRec →
    List (String × StepResult) × List FailureRec
  | [], c, f => (c, f)
  | (sid, r) :: rest, c, f =>
    if r.success then
      processResults m rest (c ++ [(sid, r)]) f
    else if !(lookupStep m sid).canFail then
      processResults m rest c (f ++ [⟨sid, r.error, false⟩])
    else
      processResults m rest (c ++ [(sid, r)]) f

/-- Failure record written for every id still in `remaining` when a wave
has an empty ready set. -/
def deadlockRec (sid : String) : FailureRec :=
  ⟨sid, "Deadlocked dependency", true⟩

/-- Accumulated state of the wave loop on normal exit. -/
structure LoopOut where
  completed : List (String × StepResult)
  failed : List FailureRec
  order : List String
  deriving Repr, DecidableEq

/-- The `while remaining:` wave loop.  The second component of the value
is the trace of executor dispatches (ids with their wrapped results),
which is meaningful even when the loop raises.  `fuel` is a structural
bound on the number of iterations; callers supply
`remaining.length + 1`, which is never exhausted because every
recursive call strictly shrinks `remaining` (see `runLoopFuel` facts
below), so the fuel-zero branch is unreachable from `executePlan`. -/
def runLoopFuel (exec : Executor) (m : List (String × Step)) :
    Nat → List String → List (String × StepResult) → List FailureRec → List String →
    List (String × StepResult) →
    Except RunError LoopOut × List (String × StepResult)
  | _, [], c, f, _o, tr => (Except.ok ⟨c, f, _o⟩, tr)
  | 0, _ :: _, c, f, o, tr => (Except.ok ⟨c, f, o⟩, tr)
  | fuel + 1, sid0 :: rest, c, f, o, tr =>
    let rem := sid0 :: rest
    if rem.any (skipTriggerB m c f rem) then
      (Except.error RunError.setChanged, tr)
    else if (readySet m c rem).isEmpty then
      (Except.ok ⟨c, f ++ rem.map deadlockRec, o⟩, tr)
    else
      let results := waveResults exec m c (readySet m c rem)
      let step2 := processResults m results c f
      runLoopFuel exec m fuel (blockedSet m c rem) step2.1 step2.2
        (o ++ readySet m c rem) (tr ++ results)

/-- The structured report `_execute_plan` returns. -/
structure Report where
  success : Bool
  stepsTotal : Nat
  stepsCompleted : Nat
  stepsFailed : Nat
  executionOrder : List String
  results : List (String × StepResult)
  failures : List FailureRec
  deriving Repr, DecidableEq

/-- Payload of the single `task.plan_executed` observability event. -/
structure EventData where
  goal : String
  stepsTotal : Nat
  stepsCompleted : Nat
  stepsFailed : Nat
  success : Bool
  deriving Repr, DecidableEq

instance instDecEqExcept {ε α : Type} [DecidableEq ε] [DecidableEq α] :
    DecidableEq (Except ε α) := fun x y =>
  match x, y with
  | Except.ok a, Except.ok b => decidable_of_iff (a = b) (by simp)
  | Except.error a, Except.error b => decidable_of_iff (a = b) (by simp)
  | Except.ok _, Except.error _ => isFalse (by simp)
  | Except.error _, Except.ok _ => isFalse (by simp)

/-- Full observable outcome of one `_execute_plan` call: the returned
report or escaped exception, the executor-dispatch trace, and the
event-sink calls made. -/
structure RunOutput where
  res : Except RunError Report
  calls : List (String × StepResult)
  events : List EventData
  deriving Repr, DecidableEq

/-- The wave loop as entered by `_execute_plan`: `remaining` starts as
the key set of `steps_by_id`, all accumulators empty. -/
def runLoopTop (exec : Executor) (m : List (String × Step)) :
    Except RunError LoopOut × List (String × StepResult) :=
  runLoopFuel exec m ((m.map Prod.fst).length + 1) (m.map Prod.fst) [] [] [] []

/-- `_execute_plan(plan_steps, task)`.  `sinkOk` is the behaviour of the
external event sink: `false` means the awaited `stub.PushEvent` call
raises (the call is still made, so it is recorded in `events`). -/
def executePlan (exec : Executor) (sinkOk : Bool) (goal : String)
    (planSteps : List Step) : RunOutput :=
  match runLoopTop exec (buildStepsById planSteps) with
  | (Except.error e, tr) => ⟨Except.error e, tr, []⟩
  | (Except.ok out, tr) =>
    let ok := out.failed.isEmpty
    let ev : EventData := ⟨goal, planSteps.length, out.completed.length, out.failed.length, ok⟩
    if sinkOk then
      ⟨Except.ok ⟨ok, planSteps.length, out.completed.length, out.failed.length,
        out.order, out.completed, out.failed⟩, tr, [ev]⟩
    else
      ⟨Except.error RunError.eventSink, tr, [ev]⟩

/-!  Plan Builder (`_create_plan`, lines 108-174).  The JSON-text
parsing front end (`json.loads` plus the bracket-extraction retry) is
external library code; its outcome is abstracted as an
`Option (List RawStep)`, where `none` means neither parse attempt
produced a value (both failure paths build the same single fallback
step).  The validation pass is modelled field by field from the source.
-/

/-- One raw step descriptor as parsed from JSON, with every field
optional (`step.get(...)` with defaults).  The opaque `input` parameter
mapping is carried through verbatim by the source and omitted here. -/
structure RawStep where
  id : Option String := none
  description : Option String := none
  agentType : Option String := none
  tool : Option String := none
  dependsOn : Option (List String) := none
  canFail : Option Bool := none
  deriving Repr, DecidableEq

/-- One validated step as appended to `validated_steps` (`status` is
always "pending" and `result` always null, so both are omitted). -/
structure VStep where
  id : String
  description : String
  agentType : String
  tool : String
  dependsOn : List String
  canFail : Bool
  deriving Repr, DecidableEq

/-- `MAX_PLAN_STEPS`. -/
def MAX_PLAN_STEPS : Nat := 20

/-- The fallback plan used when no JSON array could be extracted from
the model response (both `except` branches build this same step). -/
def fallbackSteps (desc : String) : List RawStep :=
  [{ id := some "step_1", description := some desc, agentType := some "system",
     tool := some "", dependsOn := some [], canFail := some false }]

/-- `step.get("id", f"step_{len(validated_steps) + 1}")`; `count` is
`len(validated_steps)` so far. -/
def baseId (s : RawStep) (count : Nat) : String :=
  s.id.getD ("step_" ++ toString (count + 1))

/-- Collision handling: `if step_id in seen_ids:` rename to
`f"{step_id}_{uuid.uuid4().hex[:4]}"`; `supply u` is the next uuid
suffix. -/
def assignedId (supply : Nat → String) (s : RawStep) (seen : List String)
    (count u : Nat) : String :=
  if seen.contains (baseId s count) then baseId s count ++ "_" ++ supply u
  else baseId s count

/-- The validation loop of `_create_plan`.  `seen` is `seen_ids` (a set,
modelled as the list of ids added so far — `seen_ids.add(step_id)` runs
before the `depends_on` filter, so the filter sees the step's own id),
`count` is `len(validated_steps)`, and `u` counts uuid draws. -/
def validateSteps (supply : Nat → String) :
    List RawStep → List String → Nat → Nat → List VStep
  | [], _seen, _count, _u => []
  | s :: rest, seen, count, u =>
    { id := assignedId supply s seen count u,
      description := s.description.getD "",
      agentType := s.agentType.getD "system",
      tool := s.tool.getD "",
      dependsOn := (s.dependsOn.getD []).filter
        (fun d => (seen ++ [assignedId supply s seen count u]).contains d ||
          d == assignedId supply s seen count u),
      canFail := s.canFail.getD false } ::
      validateSteps supply rest (seen ++ [assignedId supply s seen count u]) (count + 1)
        (if seen.contains (baseId s count) then u + 1 else u)

/-- `_create_plan`'s step-list construction: parse outcome (or the
fallback), truncation to `MAX_PLAN_STEPS`, then validation.  The
returned plan dict's `step_count` is the length of this list. -/
def createPlanSteps (supply : Nat → String) (desc : String)
    (parse : Option (List RawStep)) : List VStep :=
  validateSteps supply ((parse.getD (fallbackSteps desc)).take MAX_PLAN_STEPS) [] 0 0

/-!  Keyword dispatcher (`handle_task`, lines 48-61). -/

/-- Python substring membership `needle in haystack`. -/
def charsInfix (needle : List Char) : List Char → Bool
  | [] => needle == []
  | c :: rest => needle.isPrefixOf (c :: rest) || charsInfix needle rest

/-- Python `needle in haystack` on strings. -/
def pySubstr (needle haystack : String) : Bool :=
  charsInfix needle.toList haystack.toList

/-- Python `description.lower()`, as a character-wise map. -/
def pyLower (s : String) : String :=
  String.mk (s.data.map Char.toLower)

/-- Which handler `handle_task` routes to. -/
inductive Branch where
  | createPlan
  | executePlanBranch
  | delegate
  | planAndExecute
  deriving Repr, DecidableEq

/-- The dispatcher chain of `handle_task` over
`description = task.get("description", "").lower()`. -/
def handleTaskBranch (description : String) : Branch :=
  let d := pyLower description
  if pySubstr "plan" d || pySubstr "decompose" d then Branch.createPlan
  else if pySubstr "execute" d && pySubstr "plan" d then Branch.executePlanBranch
  else if pySubstr "delegate" d then Branch.delegate
  else Branch.planAndExecute

/-!  Helper definitions used to characterise `processResults`, plus the
concrete fixtures used by counterexamples and witnesses. -/

/-- The entries a wave's result loop appends to `completed`: successes
and tolerated (`can_fail`) failures. -/
def waveCompleted (m : List (String × Step)) :
    List (String × StepResult) → List (String × StepResult)
  | [] => []
  | (sid, r) :: rest =>
    if r.success then (sid, r) :: waveCompleted m rest
    else if !(lookupStep m sid).canFail then waveCompleted m rest
    else (sid, r) :: waveCompleted m rest

/-- The records a wave's result loop appends to `failed`: hard
(non-tolerated) executed failures. -/
def waveFailed (m : List (String × Step)) :
    List (String × StepResult) → List FailureRec
  | [] => []
  | (sid, r) :: rest =>
    if r.success then waveFailed m rest
    else if !(lookupStep m sid).canFail then ⟨sid, r.error, false⟩ :: waveFailed m rest
    else waveFailed m rest

/-- Executor that reports success for every step. -/
def execAllOk : Executor := fun _ _ => ExecOutcome.ok ⟨true, ""⟩

/-- Executor that reports failure for step "a" and success otherwise. -/
def execFailA : Executor := fun s _ =>
  if s.id == "a" then ExecOutcome.ok ⟨false, "boom"⟩ else ExecOutcome.ok ⟨true, ""⟩

/-- Executor whose calls all raise an exception with text "X". -/
def execExn : Executor := fun _ _ => ExecOutcome.exn "X"

/-- Executor that reports `success: False, error: "X"` for every step. -/
def execRepFail : Executor := fun _ _ => ExecOutcome.ok ⟨false, "X"⟩

/-- Two-step chain a <- b, neither tolerating failure. -/
def planChainAB : List Step := [⟨"a", [], false⟩, ⟨"b", ["a"], false⟩]

/-- Three-step chain a <- b <- c, none tolerating failure. -/
def planChainABC : List Step :=
  [⟨"a", [], false⟩, ⟨"b", ["a"], false⟩, ⟨"c", ["b"], false⟩]

/-- Single hard step. -/
def planSingleA : List Step := [⟨"a", [], false⟩]

/-- Single tolerated step. -/
def planSingleATol : List Step := [⟨"a", [], true⟩]

/-- Circular dependency: a depends on b, b depends on a. -/
def planCyc : List Step := [⟨"a", ["b"], false⟩, ⟨"b", ["a"], false⟩]

/-- Deterministic stand-in for the `uuid.uuid4().hex[:4]` supply. -/
def supply0 : Nat → String := fun _ => "0000"

/-- Raw step that lists its own id among its dependencies. -/
def rawSelfDep : RawStep := { id := some "a", dependsOn := some ["a"] }

/-!  General lemmas about the embedding. -/

theorem processResults_eq (m : List (String × Step)) (results : List (String × StepResult)) :
    ∀ c f, processResults m results c f =
      (c ++ waveCompleted m results, f ++ waveFailed m results) := by
  induction results with
  | nil => intro c f; simp [processResults, waveCompleted, waveFailed]
  | cons hd tl ih =>
    intro c f
    obtain ⟨sid, r⟩ := hd
    by_cases hs : r.success = true
    · simp [processResults, waveCompleted, waveFailed, hs, ih]
    · rw [Bool.not_eq_true] at hs
      by_cases hcf : (lookupStep m sid).canFail = true
      · simp [processResults, waveCompleted, waveFailed, hs, hcf, ih]
      · rw [Bool.not_eq_true] at hcf
        simp [processResults, waveCompleted, waveFailed, hs, hcf, ih]

theorem waveResults_map_fst (exec : Executor) (m : List (String × Step))
    (c : List (String × StepResult)) (ready : List String) :
    (waveResults exec m c ready).map Prod.fst = ready := by
  simp [waveResults, Function.comp_def]

theorem mem_waveResults_fst (exec : Executor) (m : List (String × Step))
    (c : List (String × StepResult)) (ready : List String) (sid : String) (r : StepResult)
    (h : (sid, r) ∈ waveResults exec m c ready) : sid ∈ ready := by
  have := List.mem_map_of_mem Prod.fst h
  rwa [waveResults_map_fst] at this

theorem waveCompleted_fst_sub (m : List (String × Step)) :
    ∀ (results : List (String × StepResult)) (p : String × StepResult),
      p ∈ waveCompleted m results → p ∈ results := by
  intro results
  induction results with
  | nil => intro p hp; simp [waveCompleted] at hp
  | cons hd tl ih =>
    intro p hp
    obtain ⟨sid, r⟩ := hd
    by_cases hs : r.success = true
    · simp only [waveCompleted, hs, if_pos] at hp
      rcases List.mem_cons.mp hp with h | h
      · exact h ▸ List.mem_cons_self _ _
      · exact List.mem_cons_of_mem _ (ih _ h)
    · rw [Bool.not_eq_true] at hs
      by_cases hcf : (lookupStep m sid).canFail = true
      · simp only [waveCompleted, hs, hcf, Bool.not_true, if_neg, ite_false,
          Bool.false_eq_true] at hp
        rcases List.mem_cons.mp hp with h | h
        · exact h ▸ List.mem_cons_self _ _
        · exact List.mem_cons_of_mem _ (ih _ h)
      · rw [Bool.not_eq_true] at hcf
        simp only [waveCompleted, hs, hcf, Bool.not_false, ite_true,
          Bool.false_eq_true, if_false] at hp
        exact List.mem_cons_of_mem _ (ih _ hp)

theorem mem_waveCompleted_of_tolerated (m : List (String × Step)) :
    ∀ (results : List (String × StepResult)) (sid : String) (r : StepResult),
      (sid, r) ∈ results → (lookupStep m sid).canFail = true →
      (sid, r) ∈ waveCompleted m results := by
  intro results
  induction results with
  | nil => intro sid r h; simp at h
  | cons hd tl ih =>
    intro sid r h hcf
    obtain ⟨sid2, r2⟩ := hd
    rcases List.mem_cons.mp h with h | h
    · obtain ⟨h1, h2⟩ := Prod.mk.injEq .. ▸ h
      subst h1; subst h2
      by_cases hs : r.success = true
      · simp [waveCompleted, hs]
      · rw [Bool.not_eq_true] at hs
        simp [waveCompleted, hs, hcf]
    · by_cases hs : r2.success = true
      · simp only [waveCompleted, hs, ite_true]
        exact List.mem_cons_of_mem _ (ih sid r h hcf)
      · rw [Bool.not_eq_true] at hs
        by_cases hcf2 : (lookupStep m sid2).canFail = true
        · simp only [waveCompleted, hs, hcf2, Bool.not_true, Bool.false_eq_true,
            if_false, ite_false]
          exact List.mem_cons_of_mem _ (ih sid r h hcf)
        · rw [Bool.not_eq_true] at hcf2
          simp only [waveCompleted, hs, hcf2, Bool.not_false, Bool.false_eq_true,
            if_false, ite_true]
          exact ih sid r h hcf

theorem mem_waveFailed_of_hard (m : List (String × Step)) :
    ∀ (results : List (String × StepResult)) (sid : String) (r : StepResult),
      (sid, r) ∈ results → r.success = false → (lookupStep m sid).canFail = false →
      FailureRec.mk sid r.error false ∈ waveFailed m results := by
  intro results
  induction results with
  | nil => intro sid r h; simp at h
  | cons hd tl ih =>
    intro sid r h hs hcf
    obtain ⟨sid2, r2⟩ := hd
    rcases List.mem_cons.mp h with h | h
    · obtain ⟨h1, h2⟩ := Prod.mk.injEq .. ▸ h
      subst h1; subst h2
      simp [waveFailed, hs, hcf]
    · by_cases hs2 : r2.success = true
      · simp only [waveFailed, hs2, ite_true]
        exact ih sid r h hs hcf
      · rw [Bool.not_eq_true] at hs2
        by_cases hcf2 : (lookupStep m sid2).canFail = true
        · simp only [waveFailed, hs2, hcf2, Bool.not_true, Bool.false_eq_true,
            if_false, ite_false]
          exact ih sid r h hs hcf
        · rw [Bool.not_eq_true] at hcf2
          simp only [waveFailed, hs2, hcf2, Bool.not_false, Bool.false_eq_true,
            if_false, ite_true]
          exact List.mem_cons_of_mem _ (ih sid r h hs hcf)

theorem waveFailed_spec (m : List (String × Step)) :
    ∀ (results : List (String × StepResult)) (fr : FailureRec),
      fr ∈ waveFailed m results →
      ∃ r, (fr.id, r) ∈ results ∧ (lookupStep m fr.id).canFail = false := by
  intro results
  induction results with
  | nil => intro fr h; simp [waveFailed] at h
  | cons hd tl ih =>
    intro fr h
    obtain ⟨sid2, r2⟩ := hd
    by_cases hs2 : r2.success = true
    · simp only [waveFailed, hs2, ite_true] at h
      obtain ⟨r, hr, hcf⟩ := ih fr h
      exact ⟨r, List.mem_cons_of_mem _ hr, hcf⟩
    · rw [Bool.not_eq_true] at hs2
      by_cases hcf2 : (lookupStep m sid2).canFail = true
      · simp only [waveFailed, hs2, hcf2, Bool.not_true, Bool.false_eq_true,
          if_false, ite_false] at h
        obtain ⟨r, hr, hcf⟩ := ih fr h
        exact ⟨r, List.mem_cons_of_mem _ hr, hcf⟩
      · rw [Bool.not_eq_true] at hcf2
        simp only [waveFailed, hs2, hcf2, Bool.not_false, Bool.false_eq_true,
          if_false, ite_true] at h
        rcases List.mem_cons.mp h with h | h
        · subst h
          exact ⟨r2, List.mem_cons_self _ _, hcf2⟩
        · obtain ⟨r, hr, hcf⟩ := ih fr h
          exact ⟨r, List.mem_cons_of_mem _ hr, hcf⟩

theorem insertOv_keys (m : List (String × Step)) (k : String) (v : Step) :
    (insertOv m k v).map Prod.fst =
      if m.any (fun p => p.1 == k) then m.map Prod.fst else m.map Prod.fst ++ [k] := by
  unfold insertOv
  split
  · next h =>
    simp only [h, ite_true, List.map_map]
    refine List.map_congr_left ?_
    intro p hp
    by_cases hk : p.1 = k
    · simp [hk]
    · simp [hk]
  · next h => simp [h]

theorem mem_insertOv (m : List (String × Step)) (k : String) (v : Step)
    (q : String × Step) (h : q ∈ insertOv m k v) : q ∈ m ∨ q = (k, v) := by
  unfold insertOv at h
  split at h
  · obtain ⟨p, hp, hpq⟩ := List.mem_map.mp h
    by_cases hk : p.1 == k
    · right; rw [← hpq]; simp [hk]
    · left; rw [← hpq]; simpa [hk] using hp
  · rcases List.mem_append.mp h with h | h
    · exact Or.inl h
    · right; simpa using h

theorem buildAux_keys_mem (planSteps : List Step) :
    ∀ (m0 : List (String × Step)) (x : String),
      (x ∈ (planSteps.foldl (fun m s => insertOv m s.id s) m0).map Prod.fst ↔
        x ∈ m0.map Prod.fst ∨ x ∈ planSteps.map Step.id) := by
  induction planSteps with
  | nil => intro m0 x; simp
  | cons s rest ih =>
    intro m0 x
    simp only [List.foldl_cons, List.map_cons, List.mem_cons]
    rw [ih (insertOv m0 s.id s) x, insertOv_keys]
    by_cases h : m0.any (fun p => p.1 == s.id)
    · simp only [h, ite_true]
      constructor
      · rintro (hx | hx)
        · exact Or.inl hx
        · exact Or.inr (Or.inr hx)
      · rintro (hx | hx | hx)
        · exact Or.inl hx
        · obtain ⟨p, hp, hpx⟩ := List.any_eq_true.mp h
          left
          have hpx2 : p.1 = s.id := by simpa using hpx
          rw [hx, ← hpx2]
          exact List.mem_map_of_mem Prod.fst hp
        · exact Or.inr hx
    · simp only [h, ite_false, Bool.false_eq_true, if_false, List.mem_append,
        List.mem_singleton]
      tauto

theorem buildStepsById_keys_mem (planSteps : List Step) (x : String) :
    x ∈ (buildStepsById planSteps).map Prod.fst ↔ x ∈ planSteps.map Step.id := by
  rw [buildStepsById, buildAux_keys_mem]
  simp

theorem buildAux_keys_nodup (planSteps : List Step) :
    ∀ (m0 : List (String × Step)), (m0.map Prod.fst).Nodup →
      ((planSteps.foldl (fun m s => insertOv m s.id s) m0).map Prod.fst).Nodup := by
  induction planSteps with
  | nil => intro m0 h; simpa using h
  | cons s rest ih =>
    intro m0 h
    simp only [List.foldl_cons]
    refine ih (insertOv m0 s.id s) ?_
    rw [insertOv_keys]
    by_cases hany : m0.any (fun p => p.1 == s.id)
    · simpa [hany] using h
    · rw [Bool.not_eq_true] at hany
      simp only [hany, Bool.false_eq_true, if_false, ite_false]
      rw [List.nodup_append]
      refine ⟨h, List.nodup_singleton _, ?_⟩
      intro x hx
      simp only [List.mem_singleton]
      intro hxe
      subst hxe
      obtain ⟨p, hp, hpx⟩ := List.mem_map.mp hx
      exact List.any_eq_false.mp hany p hp (by simp [hpx])

theorem buildStepsById_keys_nodup (planSteps : List Step) :
    ((buildStepsById planSteps).map Prod.fst).Nodup :=
  buildAux_keys_nodup planSteps [] (by simp)

theorem buildAux_values (planSteps : List Step) (Q : String × Step → Prop) :
    ∀ (m0 : List (String × Step)), (∀ q ∈ m0, Q q) → (∀ s ∈ planSteps, Q (s.id, s)) →
      ∀ q ∈ planSteps.foldl (fun m s => insertOv m s.id s) m0, Q q := by
  induction planSteps with
  | nil => intro m0 h0 _ q hq; exact h0 q hq
  | cons s rest ih =>
    intro m0 h0 hs q hq
    simp only [List.foldl_cons] at hq
    refine ih (insertOv m0 s.id s) ?_ (fun t ht => hs t (List.mem_cons_of_mem _ ht)) q hq
    intro p hp
    rcases mem_insertOv m0 s.id s p hp with h | h
    · exact h0 p h
    · exact h ▸ hs s (List.mem_cons_self _ _)

theorem buildStepsById_values (planSteps : List Step) (q : String × Step)
    (hq : q ∈ buildStepsById planSteps) : q.2 ∈ planSteps ∧ q.2.id = q.1 := by
  refine buildAux_values planSteps (fun q => q.2 ∈ planSteps ∧ q.2.id = q.1) [] ?_ ?_ q hq
  · intro p hp; simp at hp
  · intro s hs; exact ⟨hs, rfl⟩

theorem lookupStep_mem (m : List (String × Step)) (sid : String)
    (h : sid ∈ m.map Prod.fst) : (sid, lookupStep m sid) ∈ m := by
  obtain ⟨p, hp, hps⟩ := List.mem_map.mp h
  have hsome : (m.find? (fun q => q.1 == sid)).isSome := by
    rw [List.find?_isSome]
    exact ⟨p, hp, by simp [hps]⟩
  obtain ⟨q, hq⟩ := Option.isSome_iff_exists.mp hsome
  have hqm : q ∈ m := List.mem_of_find?_eq_some hq
  have hqs : q.1 = sid := by
    have := List.find?_some hq
    simpa using this
  have : lookupStep m sid = q.2 := by
    simp [lookupStep, hq]
  rw [this, ← hqs]
  exact hqm

theorem lookupStep_in_plan (planSteps : List Step) (sid : String)
    (h : sid ∈ (buildStepsById planSteps).map Prod.fst) :
    lookupStep (buildStepsById planSteps) sid ∈ planSteps ∧
      (lookupStep (buildStepsById planSteps) sid).id = sid := by
  have hm := lookupStep_mem (buildStepsById planSteps) sid h
  exact buildStepsById_values planSteps _ hm

theorem length_filter_not_lt {α : Type} (p : α → Bool) :
    ∀ (l : List α), (∃ x ∈ l, p x = true) →
      (l.filter (fun a => !(p a))).length < l.length := by
  intro l
  induction l with
  | nil => rintro ⟨x, hx, _⟩; simp at hx
  | cons a t ih =>
    rintro ⟨x, hx, hpx⟩
    by_cases hpa : p a = true
    · simp only [List.filter_cons, hpa, Bool.not_true, Bool.false_eq_true, if_false,
        ite_false, List.length_cons]
      exact Nat.lt_succ_of_le (List.length_filter_le _ t)
    · have hxt : x ∈ t := by
        rcases List.mem_cons.mp hx with h | h
        · subst h; exact absurd hpx hpa
        · exact h
      simp only [List.filter_cons, hpa, List.length_cons]
      have := ih ⟨x, hxt, hpx⟩
      rw [Bool.not_eq_true] at hpa
      simp only [hpa, Bool.not_false, ite_true, List.length_cons]
      exact Nat.succ_lt_succ this

theorem blockedSet_length_lt (m : List (String × Step))
    (c : List (String × StepResult)) (rem : List String)
    (h : (readySet m c rem).isEmpty = false) :
    (blockedSet m c rem).length < rem.length := by
  have hne : readySet m c rem ≠ [] := by
    intro he; rw [he] at h; simp at h
  obtain ⟨x, hx⟩ := List.exists_mem_of_ne_nil _ hne
  rw [readySet, List.mem_filter] at hx
  exact length_filter_not_lt _ rem ⟨x, hx.1, hx.2⟩

theorem runLoopFuel_nil (exec : Executor) (m : List (String × Step)) (fuel : Nat)
    (c : List (String × StepResult)) (f : List FailureRec) (o : List String)
    (tr : List (String × StepResult)) :
    runLoopFuel exec m fuel [] c f o tr = (Except.ok ⟨c, f, o⟩, tr) := by
  cases fuel <;> rfl

theorem runLoopFuel_cons (exec : Executor) (m : List (String × Step)) (fuel : Nat)
    (sid0 : String) (rest : List String) (c : List (String × StepResult))
    (f : List FailureRec) (o : List String) (tr : List (String × StepResult)) :
    runLoopFuel exec m (fuel + 1) (sid0 :: rest) c f o tr =
      (if (sid0 :: rest).any (skipTriggerB m c f (sid0 :: rest)) then
        (Except.error RunError.setChanged, tr)
      else if (readySet m c (sid0 :: rest)).isEmpty then
        (Except.ok ⟨c, f ++ (sid0 :: rest).map deadlockRec, o⟩, tr)
      else
        runLoopFuel exec m fuel (blockedSet m c (sid0 :: rest))
          (processResults m (waveResults exec m c (readySet m c (sid0 :: rest))) c f).1
          (processResults m (waveResults exec m c (readySet m c (sid0 :: rest))) c f).2
          (o ++ readySet m c (sid0 :: rest))
          (tr ++ waveResults exec m c (readySet m c (sid0 :: rest)))) := rfl

theorem runLoop_error_eq (exec : Executor) (m : List (String × Step)) :
    ∀ (fuel : Nat) (rem : List String) (c : List (String × StepResult))
      (f : List FailureRec) (o : List String) (tr tr2 : List (String × StepResult))
      (e : RunError),
      runLoopFuel exec m fuel rem c f o tr = (Except.error e, tr2) →
      e = RunError.setChanged := by
  intro fuel
  induction fuel with
  | zero =>
    intro rem c f o tr tr2 e h
    cases rem with
    | nil =>
      rw [runLoopFuel_nil] at h
      injection h with h1 _
      exact Except.noConfusion h1
    | cons a t =>
      have : runLoopFuel exec m 0 (a :: t) c f o tr = (Except.ok ⟨c, f, o⟩, tr) := rfl
      rw [this] at h
      injection h with h1 _
      exact Except.noConfusion h1
  | succ n ih =>
    intro rem c f o tr tr2 e h
    cases rem with
    | nil =>
      rw [runLoopFuel_nil] at h
      injection h with h1 _
      exact Except.noConfusion h1
    | cons a t =>
      rw [runLoopFuel_cons] at h
      by_cases hskip : ((a :: t).any (skipTriggerB m c f (a :: t))) = true
      · rw [if_pos hskip] at h
        injection h with h1 _
        injection h1 with h2
        exact h2.symm
      · rw [if_neg hskip] at h
        by_cases hready : ((readySet m c (a :: t)).isEmpty) = true
        · rw [if_pos hready] at h
          injection h with h1 _
          exact Except.noConfusion h1
        · rw [if_neg hready] at h
          exact ih _ _ _ _ _ _ _ h

theorem validateSteps_cons (supply : Nat → String) (s : RawStep) (rest : List RawStep)
    (seen : List String) (count u : Nat) :
    validateSteps supply (s :: rest) seen count u =
      { id := assignedId supply s seen count u,
        description := s.description.getD "",
        agentType := s.agentType.getD "system",
        tool := s.tool.getD "",
        dependsOn := (s.dependsOn.getD []).filter
          (fun d => (seen ++ [assignedId supply s seen count u]).contains d ||
            d == assignedId supply s seen count u),
        canFail := s.canFail.getD false } ::
        validateSteps supply rest (seen ++ [assignedId supply s seen count u]) (count + 1)
          (if seen.contains (baseId s count) then u + 1 else u) := rfl

theorem validateSteps_deps (supply : Nat → String) :
    ∀ (raw : List RawStep) (seen : List String) (count u i : Nat) (v : VStep),
      (validateSteps supply raw seen count u)[i]? = some v →
      ∀ d ∈ v.dependsOn,
        d ∈ seen ∨ d ∈ ((validateSteps supply raw seen count u).take (i + 1)).map VStep.id := by
  intro raw
  induction raw with
  | nil =>
    intro seen count u i v hv
    simp [validateSteps] at hv
  | cons s rest ih =>
    intro seen count u i v hv d hd
    rw [validateSteps_cons] at hv
    cases i with
    | zero =>
      rw [List.getElem?_cons_zero] at hv
      injection hv with hv
      rw [← hv] at hd
      simp only [List.mem_filter] at hd
      rcases (Bool.or_eq_true _ _).mp hd.2 with hsn | hid
      · have hdm : d ∈ seen ++ [assignedId supply s seen count u] := by
          simpa using hsn
        rcases List.mem_append.mp hdm with hdm | hdm
        · exact Or.inl hdm
        · right
          simp only [List.mem_singleton] at hdm
          rw [validateSteps_cons, List.take_succ_cons, List.map_cons]
          rw [hdm]
          exact List.mem_cons_self _ _
      · right
        have hdm : d = assignedId supply s seen count u := by simpa using hid
        rw [validateSteps_cons, List.take_succ_cons, List.map_cons, hdm]
        exact List.mem_cons_self _ _
    | succ j =>
      rw [List.getElem?_cons_succ] at hv
      rcases ih (seen ++ [assignedId supply s seen count u]) (count + 1)
          (if seen.contains (baseId s count) then u + 1 else u) j v hv d hd with h | h
      · rcases List.mem_append.mp h with h | h
        · exact Or.inl h
        · right
          simp only [List.mem_singleton] at h
          rw [validateSteps_cons, List.take_succ_cons, List.map_cons, h]
          exact List.mem_cons_self _ _
      · right
        rw [validateSteps_cons, List.take_succ_cons, List.map_cons]
        exact List.mem_cons_of_mem _ h

/-- C1 (code-bug evidence): on the two-step chain a <- b where the
executor hard-fails "a", once b's dependency is resolved the Runner does
NOT record b as failed/skipped and return a report — the cascading-skip
branch discards b from the `remaining` set while iterating it, so the
run raises `RuntimeError` (Set changed size during iteration).  The
executor is invoked for "a" only, and no observability event is
emitted. -/
theorem c1_cascade_skip_raises :
    (executePlan execFailA true "goal" planChainAB).res = Except.error RunError.setChanged ∧
    (executePlan execFailA true "goal" planChainAB).calls = [("a", ⟨false, "boom"⟩)] ∧
    (executePlan execFailA true "goal" planChainAB).events = [] :=
  ⟨rfl, rfl, rfl⟩

/-- C2 (code-bug evidence): `_execute_plan` can raise out of a normal
run, contradicting the claimed never-raises policy, in two ways: the
cascading-skip path raises `RuntimeError` (mutating `remaining` during
iteration, shown on the three-step chain with step "a" hard-failing),
and a failing final `push_event` call propagates (shown on a one-step
plan whose GRPC event push raises). -/
theorem c2_runner_raises :
    (executePlan execFailA true "goal" planChainABC).res = Except.error RunError.setChanged ∧
    (executePlan execAllOk false "goal" planSingleA).res = Except.error RunError.eventSink :=
  ⟨rfl, rfl⟩

/-- C6 counterexample: the Builder keeps a self-reference in
`depends_on` (the filter `d in seen_ids or d == step_id` runs after
`seen_ids.add(step_id)`), so the built plan from the single raw step
with `id = "a", depends_on = ["a"]` has a step that depends on itself,
refuting "no built step depends on itself". -/
theorem c6_counterexample :
    ∃ v ∈ createPlanSteps supply0 "goal" (some [rawSelfDep]), v.id ∈ v.dependsOn := by
  decide

/-- C6 amended: every dependency kept by the Builder refers to an id
assigned so far in the same pass — up to AND INCLUDING the step's own id
(self-references are kept, not dropped); forward references and
never-assigned ids are silently dropped. -/
theorem c6_amended_deps_assigned (supply : Nat → String) (desc : String)
    (raw : List RawStep) (i : Nat) (v : VStep)
    (hv : (createPlanSteps supply desc (some raw))[i]? = some v) :
    ∀ d ∈ v.dependsOn,
      d ∈ ((createPlanSteps supply desc (some raw)).take (i + 1)).map VStep.id := by
  intro d hd
  rcases validateSteps_deps supply (raw.take MAX_PLAN_STEPS) [] 0 0 i v hv d hd with h | h
  · simp at h
  · exact h

/-- Witness for C6 amended: the self-dependent step's dependency "a" is
among the ids assigned up to and including that step. -/
theorem c6_amended_witness :
    "a" ∈ ((createPlanSteps supply0 "goal" (some [rawSelfDep])).take 1).map VStep.id :=
  c6_amended_deps_assigned supply0 "goal" [rawSelfDep] 0
    ⟨"a", "", "system", "", ["a"], false⟩ rfl "a" (by decide)

/-- C7 counterexample: for entirely unparsable input the Builder does
not return an empty plan — it returns the single fallback step, so
`step_count` is 1, not 0. -/
theorem c7_counterexample :
    (createPlanSteps supply0 "do the thing" none).length = 1 := by
  decide

/-- C7 amended: the Builder is total; an empty parsed step list yields
zero steps, while entirely unparsable input yields exactly the single
fallback step (id "step_1", the goal text as description, agent_type
"system", empty tool, no dependencies, can_fail false). -/
theorem c7_amended_empty_and_fallback (supply : Nat → String) (desc : String) :
    createPlanSteps supply desc (some []) = [] ∧
    createPlanSteps supply desc none =
      [{ id := "step_1", description := desc, agentType := "system", tool := "",
         dependsOn := [], canFail := false }] :=
  ⟨rfl, rfl⟩

/-- Witness for C7 amended: a concrete goal text run through both the
empty-list and the unparsable path. -/
theorem c7_witness :
    createPlanSteps supply0 "deploy service" (some []) = [] ∧
    createPlanSteps supply0 "deploy service" none =
      [{ id := "step_1", description := "deploy service", agentType := "system",
         tool := "", dependsOn := [], canFail := false }] :=
  c7_amended_empty_and_fallback supply0 "deploy service"

/-- C8 counterexample: a failure of the final event-sink call DOES
replace the Runner's report — the same successful two-step run returns
its report when the sink succeeds but raises (returning no report) when
the sink call fails. -/
theorem c8_counterexample :
    (executePlan execAllOk false "goal" planChainAB).res = Except.error RunError.eventSink ∧
    (executePlan execAllOk true "goal" planChainAB).res =
      Except.ok { success := true, stepsTotal := 2, stepsCompleted := 2, stepsFailed := 0,
                  executionOrder := ["a", "b"],
                  results := [("a", ⟨true, ""⟩), ("b", ⟨true, ""⟩)],
                  failures := [] } :=
  ⟨rfl, rfl⟩

/-- C8 amended: whenever the wave loop completes, the Runner makes
exactly one event-sink call carrying the goal text, step totals and
final success flag; but the emission is NOT fire-and-forget — if the
sink call raises, the exception propagates and the report is not
returned (and on the set-mutation `RuntimeError` path no event is
emitted at all). -/
theorem c8_amended_single_event (exec : Executor) (sinkOk : Bool) (goal : String)
    (plan : List Step) :
    (∀ r, (executePlan exec sinkOk goal plan).res = Except.ok r →
        sinkOk = true ∧
        (executePlan exec sinkOk goal plan).events =
          [⟨goal, plan.length, r.stepsCompleted, r.stepsFailed, r.success⟩]) ∧
    ((executePlan exec sinkOk goal plan).res = Except.error RunError.eventSink →
        sinkOk = false ∧ (executePlan exec sinkOk goal plan).events.length = 1) ∧
    ((executePlan exec sinkOk goal plan).res = Except.error RunError.setChanged →
        (executePlan exec sinkOk goal plan).events = []) := by
  cases hrl : runLoopTop exec (buildStepsById plan) with
  | mk res tr =>
    cases res with
    | error e =>
      have he : e = RunError.setChanged :=
        runLoop_error_eq exec (buildStepsById plan) _ _ _ _ _ _ _ _ hrl
      subst he
      refine ⟨?_, ?_, ?_⟩ <;> simp [executePlan, hrl]
    | ok out =>
      cases sinkOk with
      | false =>
        refine ⟨?_, ?_, ?_⟩ <;> simp [executePlan, hrl]
      | true =>
        refine ⟨?_, ?_, ?_⟩ <;> simp [executePlan, hrl]

/-- Witness for C8 amended: a successful one-step run with a healthy
sink emits exactly the summary event for its report. -/
theorem c8_amended_witness :
    (executePlan execAllOk true "goal" planSingleA).events =
      [⟨"goal", 1, 1, 0, true⟩] :=
  ((c8_amended_single_event execAllOk true "goal" planSingleA).1
    { success := true, stepsTotal := 1, stepsCompleted := 1, stepsFailed := 0,
      executionOrder := ["a"], results := [("a", ⟨true, ""⟩)], failures := [] }
    rfl).2

/-- C9: `handle_task` checks `"plan" in description` before the
execute-plan branch, whose own condition requires `"plan" in
description` as well; hence any description containing both "execute"
and "plan" is routed to plan creation, and the dedicated execute-plan
branch is unreachable for every input description. -/
theorem c9_execute_branch_unreachable :
    (∀ desc : String, pySubstr "plan" (pyLower desc) = true →
        handleTaskBranch desc = Branch.createPlan) ∧
    (∀ desc : String, handleTaskBranch desc ≠ Branch.executePlanBranch) := by
  constructor
  · intro desc h
    simp [handleTaskBranch, h]
  · intro desc h
    unfold handleTaskBranch at h
    by_cases h1 : pySubstr "plan" (pyLower desc) = true <;>
      by_cases h2 : pySubstr "decompose" (pyLower desc) = true <;>
        by_cases h4 : pySubstr "delegate" (pyLower desc) = true <;>
          simp [h1, h2, h4] at h

/-- Witness for C9: a description containing both "execute" and "plan"
is routed to plan creation. -/
theorem c9_witness :
    pySubstr "plan" (pyLower "Execute the plan") = true ∧
    handleTaskBranch "Execute the plan" = Branch.createPlan := by
  refine ⟨by decide, ?_⟩
  exact (c9_execute_branch_unreachable).1 "Execute the plan" (by decide)

/-- C10: an exception raised while executing one step is caught by the
`_run_step` wrapper and converted into the synthetic failure result
`{success: false, error: str(exc)}`; the wrapped result is identical to
an executor-reported failure with the same text (so the `can_fail`
tolerance rule treats both the same), and every sibling step of the wave
still gets its own entry in the wave's results. -/
theorem c10_exception_wrapped (exec exec2 : Executor) (m : List (String × Step))
    (c c0 : List (String × StepResult)) (f0 : List FailureRec)
    (ready : List String) (sid msg : String) (hmem : sid ∈ ready)
    (hexn : exec (lookupStep m sid) c = ExecOutcome.exn msg)
    (hrep : exec2 (lookupStep m sid) c = ExecOutcome.ok ⟨false, msg⟩) :
    runStepWrapper exec m c sid = ⟨false, msg⟩ ∧
    runStepWrapper exec m c sid = runStepWrapper exec2 m c sid ∧
    (sid, (⟨false, msg⟩ : StepResult)) ∈ waveResults exec m c ready ∧
    (∀ sid2 ∈ ready, (sid2, runStepWrapper exec m c sid2) ∈ waveResults exec m c ready) ∧
    processResults m [(sid, ⟨false, msg⟩)] c0 f0 =
      (if (lookupStep m sid).canFail then (c0 ++ [(sid, ⟨false, msg⟩)], f0)
       else (c0, f0 ++ [⟨sid, msg, false⟩])) := by
  have h1 : runStepWrapper exec m c sid = ⟨false, msg⟩ := by
    simp [runStepWrapper, hexn]
  have h2 : runStepWrapper exec2 m c sid = ⟨false, msg⟩ := by
    simp [runStepWrapper, hrep]
  refine ⟨h1, by rw [h1, h2], ?_, ?_, ?_⟩
  · rw [← h1]
    exact List.mem_map_of_mem _ hmem
  · intro sid2 hs2
    exact List.mem_map_of_mem _ hs2
  · by_cases hcf : (lookupStep m sid).canFail = true
    · simp [processResults, hcf]
    · rw [Bool.not_eq_true] at hcf
      simp [processResults, hcf]

/-- Witness for C10: a step whose execution raises (message "X") on a
single-step wave. -/
theorem c10_witness :
    runStepWrapper execExn (buildStepsById planSingleA) [] "a" = ⟨false, "X"⟩ ∧
    runStepWrapper execExn (buildStepsById planSingleA) [] "a" =
      runStepWrapper execRepFail (buildStepsById planSingleA) [] "a" ∧
    ("a", (⟨false, "X"⟩ : StepResult)) ∈
      waveResults execExn (buildStepsById planSingleA) [] ["a"] ∧
    (∀ sid2 ∈ ["a"], (sid2, runStepWrapper execExn (buildStepsById planSingleA) [] sid2) ∈
      waveResults execExn (buildStepsById planSingleA) [] ["a"]) ∧
    processResults (buildStepsById planSingleA) [("a", ⟨false, "X"⟩)] [] [] =
      (if (lookupStep (buildStepsById planSingleA) "a").canFail then
        ([] ++ [("a", (⟨false, "X"⟩ : StepResult))], ([] : List FailureRec))
       else ([], [] ++ [⟨"a", "X", false⟩])) :=
  c10_exception_wrapped execExn execRepFail (buildStepsById planSingleA) [] [] [] ["a"]
    "a" "X" (by decide) rfl rfl

theorem runLoopFuel_deadlock (exec : Executor) (m : List (String × Step)) (fuel : Nat)
    (rem : List String) (c : List (String × StepResult)) (f : List FailureRec)
    (o : List String) (tr : List (String × StepResult))
    (hne : rem ≠ [])
    (hskip : rem.any (skipTriggerB m c f rem) = false)
    (hready : (readySet m c rem).isEmpty = true) :
    runLoopFuel exec m (fuel + 1) rem c f o tr =
      (Except.ok ⟨c, f ++ rem.map deadlockRec, o⟩, tr) := by
  obtain ⟨r0, rest, hrem⟩ := List.exists_cons_of_ne_nil hne
  subst hrem
  rw [runLoopFuel_cons, if_neg (by simp [hskip]), if_pos hready]

/-- C3: on any non-empty plan in which every (effective) step has at
least one dependency pointing back into the plan — e.g. a circular
dependency with no other unresolved blockers — the very first wave has
an empty ready set, so the Runner records every remaining id as failed
with "Deadlocked dependency" and `skipped: true`, makes zero
step-executor calls, stops the wave loop, emits the summary event, and
reports overall `success = false`. -/
theorem c3_deadlock (exec : Executor) (goal : String) (plan : List Step)
    (hne : plan ≠ [])
    (hcyc : ∀ s ∈ plan, ∃ d ∈ s.dependsOn, d ∈ plan.map Step.id) :
    executePlan exec true goal plan =
      ⟨Except.ok
        { success := false, stepsTotal := plan.length, stepsCompleted := 0,
          stepsFailed := ((buildStepsById plan).map Prod.fst).length,
          executionOrder := [], results := [],
          failures := ((buildStepsById plan).map Prod.fst).map deadlockRec },
       [], [⟨goal, plan.length, 0, ((buildStepsById plan).map Prod.fst).length, false⟩]⟩ := by
  have hremne : (buildStepsById plan).map Prod.fst ≠ [] := by
    obtain ⟨s, rest, hp⟩ := List.exists_cons_of_ne_nil hne
    intro hemp
    have : s.id ∈ (buildStepsById plan).map Prod.fst := by
      rw [buildStepsById_keys_mem, hp]
      simp
    rw [hemp] at this
    simp at this
  have hready : readySet (buildStepsById plan) [] ((buildStepsById plan).map Prod.fst) = [] := by
    rw [readySet, List.filter_eq_nil_iff]
    intro sid hsid
    obtain ⟨hmemp, _⟩ := lookupStep_in_plan plan sid hsid
    obtain ⟨d, hd, hdp⟩ := hcyc _ hmemp
    rw [← buildStepsById_keys_mem] at hdp
    intro hres
    rw [depsResolvedB, List.all_eq_true] at hres
    have h2 := hres d hd
    simp [hdp] at h2
  have hskip : ((buildStepsById plan).map Prod.fst).any
      (skipTriggerB (buildStepsById plan) [] [] ((buildStepsById plan).map Prod.fst)) = false := by
    rw [List.any_eq_false]
    intro sid _
    simp [skipTriggerB, depFailedB]
  obtain ⟨r0, rest, hrem⟩ := List.exists_cons_of_ne_nil hremne
  have hloop : runLoopTop exec (buildStepsById plan) =
      (Except.ok ⟨[], [] ++ ((buildStepsById plan).map Prod.fst).map deadlockRec, []⟩, []) :=
    runLoopFuel_deadlock exec (buildStepsById plan)
      (((buildStepsById plan).map Prod.fst).length)
      ((buildStepsById plan).map Prod.fst) [] [] [] [] hremne hskip
      (by rw [readySet] at hready ⊢; rw [hready]; rfl)
  simp only [executePlan, hloop]
  have hfne : (((buildStepsById plan).map Prod.fst).map deadlockRec).isEmpty = false := by
    rw [hrem]
    rfl
  simp only [List.nil_append, hfne, Bool.false_eq_true, if_false, ite_false]
  simp [List.length_map]

/-- Witness for C3: the circular plan a <-> b deadlocks immediately —
both steps recorded "Deadlocked dependency"/skipped, zero executor
calls, success false. -/
theorem c3_witness :
    executePlan execAllOk true "goal" planCyc =
      ⟨Except.ok
        { success := false, stepsTotal := 2, stepsCompleted := 0, stepsFailed := 2,
          executionOrder := [], results := [],
          failures := [⟨"a", "Deadlocked dependency", true⟩,
                       ⟨"b", "Deadlocked dependency", true⟩] },
       [], [⟨"goal", 2, 0, 2, false⟩]⟩ :=
  c3_deadlock execAllOk "goal" planCyc (by decide) (by decide)

theorem runLoop_c4 (exec : Executor) (m : List (String × Step)) :
    ∀ (fuel : Nat) (rem : List String) (c : List (String × StepResult))
      (f : List FailureRec) (o : List String) (tr : List (String × StepResult)),
      rem.length < fuel →
      (∀ sid ∈ rem, ∀ x : StepResult, (sid, x) ∉ tr) →
      (∀ sid ∈ rem, ∀ fr ∈ f, fr.id ≠ sid) →
      (∀ sid res, (sid, res) ∈ tr → res.success = false →
        ((lookupStep m sid).canFail = true → (sid, res) ∈ c ∧ ∀ fr ∈ f, fr.id ≠ sid) ∧
        ((lookupStep m sid).canFail = false → FailureRec.mk sid res.error false ∈ f)) →
      ∀ (out : LoopOut) (tr2 : List (String × StepResult)),
        runLoopFuel exec m fuel rem c f o tr = (Except.ok out, tr2) →
        ∀ sid res, (sid, res) ∈ tr2 → res.success = false →
          ((lookupStep m sid).canFail = true →
            (sid, res) ∈ out.completed ∧ ∀ fr ∈ out.failed, fr.id ≠ sid) ∧
          ((lookupStep m sid).canFail = false →
            FailureRec.mk sid res.error false ∈ out.failed) := by
  intro fuel
  induction fuel with
  | zero =>
    intro rem c f o tr hlen
    exact absurd hlen (Nat.not_lt_zero _)
  | succ n ih =>
    intro rem c f o tr hlen hdt hdf hc out tr2 hrun
    cases rem with
    | nil =>
      rw [runLoopFuel_nil] at hrun
      injection hrun with h1 h2
      injection h1 with h1
      subst h1
      subst h2
      exact hc
    | cons a t =>
      rw [runLoopFuel_cons] at hrun
      by_cases hskip : ((a :: t).any (skipTriggerB m c f (a :: t))) = true
      · rw [if_pos hskip] at hrun
        injection hrun with h1 _
        exact Except.noConfusion h1
      · rw [if_neg hskip] at hrun
        by_cases hready : ((readySet m c (a :: t)).isEmpty) = true
        · rw [if_pos hready] at hrun
          injection hrun with h1 h2
          injection h1 with h1
          subst h1
          subst h2
          intro sid res hmem hsucc
          have h0 := hc sid res hmem hsucc
          refine ⟨fun hcf => ⟨(h0.1 hcf).1, ?_⟩, fun hcf => ?_⟩
          · intro fr hfr
            rcases List.mem_append.mp hfr with hfr | hfr
            · exact (h0.1 hcf).2 fr hfr
            · obtain ⟨sid2, hsid2, hfr2⟩ := List.mem_map.mp hfr
              intro heq
              have hid : fr.id = sid2 := by rw [← hfr2]; rfl
              rw [heq] at hid
              exact hdt sid2 hsid2 res (hid ▸ hmem)
          · exact List.mem_append_left _ (h0.2 hcf)
        · rw [if_neg hready] at hrun
          rw [processResults_eq] at hrun
          have hlen2 : (blockedSet m c (a :: t)).length < n := by
            have h1 : (blockedSet m c (a :: t)).length < (a :: t).length :=
              blockedSet_length_lt m c (a :: t) (Bool.eq_false_iff.mpr hready)
            have h2 : (a :: t).length ≤ n := Nat.lt_succ_iff.mp hlen
            exact Nat.lt_of_lt_of_le h1 h2
          refine ih (blockedSet m c (a :: t)) _ _ _ _ hlen2 ?_ ?_ ?_ out tr2 hrun
          · intro sid hsid x hmem
            rcases List.mem_append.mp hmem with hmem | hmem
            · exact hdt sid (List.mem_of_mem_filter hsid) x hmem
            · have hrd : sid ∈ readySet m c (a :: t) :=
                mem_waveResults_fst exec m c _ sid x hmem
              have h1 : depsResolvedB c (a :: t) (lookupStep m sid) = true :=
                (List.mem_filter.mp hrd).2
              have h2 := (List.mem_filter.mp hsid).2
              rw [h1] at h2
              simp at h2
          · intro sid hsid fr hfr
            rcases List.mem_append.mp hfr with hfr | hfr
            · exact hdf sid (List.mem_of_mem_filter hsid) fr hfr
            · obtain ⟨rr, hrr, hcf⟩ := waveFailed_spec m _ fr hfr
              have hrd : fr.id ∈ readySet m c (a :: t) :=
                mem_waveResults_fst exec m c _ fr.id rr hrr
              intro heq
              have h1 : depsResolvedB c (a :: t) (lookupStep m fr.id) = true :=
                (List.mem_filter.mp hrd).2
              have h2 := (List.mem_filter.mp hsid).2
              rw [heq] at h1
              rw [h1] at h2
              simp at h2
          · intro sid res hmem hsucc
            rcases List.mem_append.mp hmem with hmem | hmem
            · have h0 := hc sid res hmem hsucc
              refine ⟨fun hcf => ⟨List.mem_append_left _ (h0.1 hcf).1, ?_⟩,
                fun hcf => List.mem_append_left _ (h0.2 hcf)⟩
              intro fr hfr
              rcases List.mem_append.mp hfr with hfr | hfr
              · exact (h0.1 hcf).2 fr hfr
              · obtain ⟨rr, hrr, _⟩ := waveFailed_spec m _ fr hfr
                have hrd : fr.id ∈ readySet m c (a :: t) :=
                  mem_waveResults_fst exec m c _ fr.id rr hrr
                intro heq
                exact hdt fr.id (List.mem_of_mem_filter hrd) res (heq ▸ hmem)
            · have hrd : sid ∈ readySet m c (a :: t) :=
                mem_waveResults_fst exec m c _ sid res hmem
              refine ⟨fun hcf => ?_, fun hcf => ?_⟩
              · refine ⟨List.mem_append_right _
                  (mem_waveCompleted_of_tolerated m _ sid res hmem hcf), ?_⟩
                intro fr hfr
                rcases List.mem_append.mp hfr with hfr | hfr
                · exact hdf sid (List.mem_of_mem_filter hrd) fr hfr
                · obtain ⟨rr, hrr, hcf2⟩ := waveFailed_spec m _ fr hfr
                  intro heq
                  rw [heq] at hcf2
                  rw [hcf] at hcf2
                  exact Bool.noConfusion hcf2
              · exact List.mem_append_right _
                  (mem_waveFailed_of_hard m _ sid res hmem hsucc hcf)

/-- C4: in any run that returns a report, an executed step whose result
reports failure is handled by the `can_fail` rule — with `can_fail` true
it is retained in the completed results (failure payload intact) and its
id never appears in the failure list; with `can_fail` false a failure
record with the executor's error text is in the failure list.  The
report's `success` flag is true exactly when the failure list is
empty. -/
theorem c4_can_fail_rule (exec : Executor) (sinkOk : Bool) (goal : String)
    (plan : List Step) (r : Report)
    (h : (executePlan exec sinkOk goal plan).res = Except.ok r) :
    (r.success = true ↔ r.failures = []) ∧
    (∀ sid res, (sid, res) ∈ (executePlan exec sinkOk goal plan).calls →
      res.success = false →
      ((lookupStep (buildStepsById plan) sid).canFail = true →
        (sid, res) ∈ r.results ∧ ∀ fr ∈ r.failures, fr.id ≠ sid) ∧
      ((lookupStep (buildStepsById plan) sid).canFail = false →
        FailureRec.mk sid res.error false ∈ r.failures)) := by
  cases hrl : runLoopTop exec (buildStepsById plan) with
  | mk res0 tr =>
    cases res0 with
    | error e =>
      rw [executePlan, hrl] at h
      exact Except.noConfusion h
    | ok out =>
      cases sinkOk with
      | false =>
        rw [executePlan, hrl] at h
        simp at h
      | true =>
        rw [executePlan, hrl] at h
        simp only [if_true, ite_true] at h
        injection h with h
        subst h
        constructor
        · simp [List.isEmpty_iff]
        · intro sid res hmem hsucc
          have hcalls : (executePlan exec true goal plan).calls = tr := by
            simp [executePlan, hrl]
          rw [hcalls] at hmem
          exact runLoop_c4 exec (buildStepsById plan)
            (((buildStepsById plan).map Prod.fst).length + 1)
            ((buildStepsById plan).map Prod.fst) [] [] [] []
            (Nat.lt_succ_self _) (by simp) (by simp) (by simp)
            out tr hrl sid res hmem hsucc

/-- Witness for C4: the single hard step "a" fails ("boom"); its failure
record carries the executor's error text in the report's failure
list. -/
theorem c4_witness :
    FailureRec.mk "a" "boom" false ∈
      ({ success := false, stepsTotal := 1, stepsCompleted := 0, stepsFailed := 1,
         executionOrder := ["a"], results := [],
         failures := [⟨"a", "boom", false⟩] } : Report).failures :=
  ((c4_can_fail_rule execFailA true "goal" planSingleA
      { success := false, stepsTotal := 1, stepsCompleted := 0, stepsFailed := 1,
        executionOrder := ["a"], results := [], failures := [⟨"a", "boom", false⟩] }
      rfl).2 "a" ⟨false, "boom"⟩ (by decide) rfl).2 rfl

theorem runLoop_c5 (exec : Executor) (m : List (String × Step)) (aId bId : String)
    (hab : aId ∈ (lookupStep m bId).dependsOn)
    (ha : aId ∈ m.map Prod.fst) :
    ∀ (fuel : Nat) (rem : List String) (c : List (String × StepResult))
      (f : List FailureRec) (o : List String) (tr : List (String × StepResult)),
      rem.length < fuel →
      (∀ sid ∈ rem, sid ∉ o) →
      (∀ p ∈ c, p.1 ∈ o) →
      (∀ k ∈ m.map Prod.fst, k ∈ rem ∨ k ∈ o) →
      (bId ∈ o → aId ∈ o ∧ o.indexOf aId < o.indexOf bId) →
      ∀ (out : LoopOut) (tr2 : List (String × StepResult)),
        runLoopFuel exec m fuel rem c f o tr = (Except.ok out, tr2) →
        bId ∈ out.order → aId ∈ out.order ∧ out.order.indexOf aId < out.order.indexOf bId := by
  intro fuel
  induction fuel with
  | zero =>
    intro rem c f o tr hlen
    exact absurd hlen (Nat.not_lt_zero _)
  | succ n ih =>
    intro rem c f o tr hlen hro hco hcov hprev out tr2 hrun
    cases rem with
    | nil =>
      rw [runLoopFuel_nil] at hrun
      injection hrun with h1 h2
      injection h1 with h1
      subst h1
      exact hprev
    | cons a t =>
      rw [runLoopFuel_cons] at hrun
      by_cases hskip : ((a :: t).any (skipTriggerB m c f (a :: t))) = true
      · rw [if_pos hskip] at hrun
        injection hrun with h1 _
        exact Except.noConfusion h1
      · rw [if_neg hskip] at hrun
        by_cases hready : ((readySet m c (a :: t)).isEmpty) = true
        · rw [if_pos hready] at hrun
          injection hrun with h1 h2
          injection h1 with h1
          subst h1
          exact hprev
        · rw [if_neg hready] at hrun
          rw [processResults_eq] at hrun
          have hlen2 : (blockedSet m c (a :: t)).length < n := by
            have h1 : (blockedSet m c (a :: t)).length < (a :: t).length :=
              blockedSet_length_lt m c (a :: t) (Bool.eq_false_iff.mpr hready)
            exact Nat.lt_of_lt_of_le h1 (Nat.lt_succ_iff.mp hlen)
          refine ih (blockedSet m c (a :: t)) _ _ _ _ hlen2 ?_ ?_ ?_ ?_ out tr2 hrun
          · intro sid hsid hmem
            rcases List.mem_append.mp hmem with hmem | hmem
            · exact hro sid (List.mem_of_mem_filter hsid) hmem
            · have h1 : depsResolvedB c (a :: t) (lookupStep m sid) = true :=
                (List.mem_filter.mp hmem).2
              have h2 := (List.mem_filter.mp hsid).2
              rw [h1] at h2
              simp at h2
          · intro p hp
            rcases List.mem_append.mp hp with hp | hp
            · exact List.mem_append_left _ (hco p hp)
            · obtain ⟨ps, pr⟩ := p
              have h1 : (ps, pr) ∈ waveResults exec m c (readySet m c (a :: t)) :=
                waveCompleted_fst_sub m _ (ps, pr) hp
              have h2 : ps ∈ readySet m c (a :: t) :=
                mem_waveResults_fst exec m c _ ps pr h1
              exact List.mem_append_right _ h2
          · intro k hk
            rcases hcov k hk with hk2 | hk2
            · by_cases hres : depsResolvedB c (a :: t) (lookupStep m k) = true
              · right
                exact List.mem_append_right _ (List.mem_filter.mpr ⟨hk2, hres⟩)
              · left
                refine List.mem_filter.mpr ⟨hk2, ?_⟩
                rw [Bool.not_eq_true] at hres
                simp [hres]
            · right
              exact List.mem_append_left _ hk2
          · intro hb
            rcases List.mem_append.mp hb with hb | hb
            · obtain ⟨haO, hidx⟩ := hprev hb
              refine ⟨List.mem_append_left _ haO, ?_⟩
              rw [List.indexOf_append_of_mem haO, List.indexOf_append_of_mem hb]
              exact hidx
            · have hbrem : bId ∈ (a :: t) := List.mem_of_mem_filter hb
              have hdeps : depsResolvedB c (a :: t) (lookupStep m bId) = true :=
                (List.mem_filter.mp hb).2
              rw [depsResolvedB, List.all_eq_true] at hdeps
              have h2 := hdeps aId hab
              have haO : aId ∈ o := by
                rcases (Bool.or_eq_true _ _).mp h2 with hca | hnc
                · obtain ⟨p, hp, hpa⟩ := List.any_eq_true.mp hca
                  have h3 : p.1 = aId := by simpa using hpa
                  exact h3 ▸ hco p hp
                · have hnr : aId ∉ (a :: t) := by simpa using hnc
                  rcases hcov aId ha with h3 | h3
                  · exact absurd h3 hnr
                  · exact h3
              have hbO : bId ∉ o := hro bId hbrem
              refine ⟨List.mem_append_left _ haO, ?_⟩
              rw [List.indexOf_append_of_mem haO, List.indexOf_append_of_not_mem hbO]
              exact Nat.lt_of_lt_of_le (List.indexOf_lt_length.mpr haO)
                (Nat.le_add_right _ _)

/-- C5: whenever a run returns a report, a step whose `depends_on`
contains the id of another step that is present in the plan is never
listed in `execution_order` (equivalently, never dispatched) before that
dependency: if B appears in the order, A appears too, strictly
earlier. -/
theorem c5_dependency_order (exec : Executor) (sinkOk : Bool) (goal : String)
    (plan : List Step) (aId bId : String) (r : Report)
    (ha : aId ∈ plan.map Step.id)
    (hab : aId ∈ (lookupStep (buildStepsById plan) bId).dependsOn)
    (h : (executePlan exec sinkOk goal plan).res = Except.ok r)
    (hb : bId ∈ r.executionOrder) :
    aId ∈ r.executionOrder ∧
      r.executionOrder.indexOf aId < r.executionOrder.indexOf bId := by
  cases hrl : runLoopTop exec (buildStepsById plan) with
  | mk res0 tr =>
    cases res0 with
    | error e =>
      rw [executePlan, hrl] at h
      exact Except.noConfusion h
    | ok out =>
      cases sinkOk with
      | false =>
        rw [executePlan, hrl] at h
        simp at h
      | true =>
        rw [executePlan, hrl] at h
        simp only [if_true, ite_true] at h
        injection h with h
        subst h
        exact runLoop_c5 exec (buildStepsById plan) aId bId hab
          ((buildStepsById_keys_mem plan aId).mpr ha)
          (((buildStepsById plan).map Prod.fst).length + 1)
          ((buildStepsById plan).map Prod.fst) [] [] [] []
          (Nat.lt_succ_self _) (by simp) (by simp) (fun k hk => Or.inl hk)
          (by simp) out tr hrl hb

/-- Witness for C5: in the successful chain run a <- b, "a" precedes "b"
in the reported execution order. -/
theorem c5_witness :
    "a" ∈ (["a", "b"] : List String) ∧
      (["a", "b"] : List String).indexOf "a" < (["a", "b"] : List String).indexOf "b" :=
  c5_dependency_order execAllOk true "goal" planChainAB "a" "b"
    { success := true, stepsTotal := 2, stepsCompleted := 2, stepsFailed := 0,
      executionOrder := ["a", "b"],
      results := [("a", ⟨true, ""⟩), ("b", ⟨true, ""⟩)], failures := [] }
    (by decide) (by decide) rfl (by decide)

end AiosTask
